import Mathlib

/-!
# Shallow embedding of the dynasty pick-trading core

This file embeds the ownership-derivation and trade-legality engine of the
repository (src/lib/tradeValidation.ts and the duplicate `rebuildOwnership`
helper in src/components/OwnershipTable.tsx) and proves the specification
claims about it.

Modelling decisions:
* `year` and `round` are `Int` (JS numbers used as integers; `year - 1` is
  genuine integer subtraction).
* `createdAt` is the `Int` time value produced by `new Date(s).getTime()`;
  the code only ever compares these time values.
* The JS `Map<string, TeamId>` keyed by the template string
  `year + "-" + round + "-" + originalOwnerId` is modelled as an association
  list keyed by the triple `(year, round, originalOwnerId)`: for integer
  year/round the decimal renderings contain no interior dash ambiguity, so
  the string key is injective in the triple.  `mapSet` updates an existing
  entry in place and appends unknown keys at the end, exactly like
  `Map.prototype.set`; `mapGet?` returns the entry for a key
  (`undefined` becomes `none`).
* JS `Array.prototype.sort` is stable (ES2019); `List.insertionSort` with a
  non-strict `≤` comparison has the same stability, so it models
  `trades.sort((a, b) => ta - tb)` faithfully, ties included.
-/

abbrev TeamId := String

structure Team where
  id : TeamId
  name : String
deriving DecidableEq, Repr

structure Pick where
  year : Int
  round : Int
  originalOwnerId : TeamId
  currentOwnerId : TeamId
deriving DecidableEq, Repr

structure TradePickRef where
  year : Int
  round : Int
  originalOwnerId : TeamId
deriving DecidableEq, Repr

structure Trade where
  id : String
  createdAt : Int
  fromTeamId : TeamId
  toTeamId : TeamId
  picks : List TradePickRef
  notes : Option String := none
deriving DecidableEq, Repr

structure State where
  teams : List Team
  basePicks : List Pick
  trades : List Trade
deriving DecidableEq, Repr

structure ValidationResult where
  ok : Bool
  error : Option String := none
deriving DecidableEq, Repr

/-- The identity key `(year, round, originalOwnerId)` of a pick slot,
modelling the JS template string `year-round-originalOwnerId`. -/
abbrev PickKey := Int × Int × TeamId

def Pick.key (p : Pick) : PickKey := (p.year, p.round, p.originalOwnerId)

def TradePickRef.key (r : TradePickRef) : PickKey := (r.year, r.round, r.originalOwnerId)

/-! ### The `Map<string, TeamId>` model -/

abbrev Ownership := List (PickKey × TeamId)

/-- `Map.prototype.get`: value at a key, `none` for JS `undefined`. -/
def mapGet? : Ownership → PickKey → Option TeamId
  | [], _ => none
  | (k', v) :: m, k => if k' = k then some v else mapGet? m k

/-- `Map.prototype.has`. -/
def mapHas (m : Ownership) (k : PickKey) : Bool := (mapGet? m k).isSome

/-- `Map.prototype.set`: update an existing entry in place, otherwise
append a fresh entry at the end. -/
def mapSet : Ownership → PickKey → TeamId → Ownership
  | [], k, v => [(k, v)]
  | (k', v') :: m, k, v => if k' = k then (k, v) :: m else (k', v') :: mapSet m k v

/-! ### rebuildOwnership (src/lib/tradeValidation.ts, lines 9-34) -/

/-- Seeding loop: `for (const pick of state.basePicks) ownership.set(key, pick.currentOwnerId)`. -/
def seedOwnership (basePicks : List Pick) : Ownership :=
  basePicks.foldl (fun m p => mapSet m p.key p.currentOwnerId) []

/-- Body of the inner replay loop of `rebuildOwnership`, for one `pickRef`. -/
def applyRef (t : Trade) (m : Ownership) (ref : TradePickRef) : Ownership :=
  if mapHas m ref.key then
    if mapGet? m ref.key = some t.fromTeamId then mapSet m ref.key t.toTeamId else m
  else m

/-- One iteration of the outer replay loop: apply every `pickRef` of a trade. -/
def applyTrade (m : Ownership) (t : Trade) : Ownership :=
  t.picks.foldl (applyRef t) m

/-- `[...state.trades].sort((a, b) => ta - tb)`: stable ascending sort by
`createdAt` time value. -/
def sortTrades (trades : List Trade) : List Trade :=
  List.insertionSort (fun a b => a.createdAt ≤ b.createdAt) trades

/-- `rebuildOwnership` from src/lib/tradeValidation.ts. -/
def rebuildOwnership (state : State) : Ownership :=
  (sortTrades state.trades).foldl applyTrade (seedOwnership state.basePicks)

/-! ### rebuildOwnership (src/components/OwnershipTable.tsx, lines 9-38)

The component file carries its own private copy of the helper; it is embedded
separately so that the equivalence claim compares two definitions, each read
off its own source. -/

namespace OwnershipTable

def seedOwnership (basePicks : List Pick) : Ownership :=
  basePicks.foldl (fun m p => mapSet m p.key p.currentOwnerId) []

def applyRef (t : Trade) (m : Ownership) (ref : TradePickRef) : Ownership :=
  if mapHas m ref.key then
    if mapGet? m ref.key = some t.fromTeamId then mapSet m ref.key t.toTeamId else m
  else m

def applyTrade (m : Ownership) (t : Trade) : Ownership :=
  t.picks.foldl (applyRef t) m

def sortTrades (trades : List Trade) : List Trade :=
  List.insertionSort (fun a b => a.createdAt ≤ b.createdAt) trades

def rebuildOwnership (state : State) : Ownership :=
  (sortTrades state.trades).foldl applyTrade (seedOwnership state.basePicks)

end OwnershipTable

/-! ### validateNoDuplicatePicks (src/lib/tradeValidation.ts, lines 40-67) -/

/-- The description pushed onto `duplicates` for a repeated pick. -/
def dupMsg (p : TradePickRef) : String :=
  toString p.year ++ " Round " ++ toString p.round ++
    " (originally owned by " ++ p.originalOwnerId ++ ")"

/-- The `for (const pick of picks)` loop of `validateNoDuplicatePicks`,
carrying the `pickKeys` set and the `duplicates` array. -/
def dupScan : List PickKey → List String → List TradePickRef → List PickKey × List String
  | seen, dups, [] => (seen, dups)
  | seen, dups, pick :: rest =>
    if pick.key ∈ seen then dupScan seen (dups ++ [dupMsg pick]) rest
    else dupScan (seen ++ [pick.key]) dups rest

/-- The `duplicates` array accumulated over the whole pick list. -/
def duplicateEntries (picks : List TradePickRef) : List String :=
  (dupScan [] [] picks).2

def validateNoDuplicatePicks (picks : List TradePickRef) : ValidationResult :=
  if picks.length = 0 then
    { ok := false, error := some "Trade must contain at least one pick" }
  else
    let duplicates := duplicateEntries picks
    if duplicates.length > 0 then
      { ok := false,
        error := some ("Duplicate picks found in trade: " ++ String.intercalate ", " duplicates) }
    else { ok := true }

/-! ### isPickLockedByStepienRule (src/lib/tradeValidation.ts, lines 74-105) -/

def isPickLockedByStepienRule (state : State) (teamId : TeamId)
    (year round : Int) : Bool :=
  if round ≠ 1 then false
  else
    let ownership := rebuildOwnership state
    let previousYear := year - 1
    let previousYearKey : PickKey := (previousYear, 1, teamId)
    let previousYearPickExists := state.basePicks.any fun p =>
      p.year == previousYear && p.round == 1 && p.originalOwnerId == teamId
    if !previousYearPickExists then false
    else
      let previousYearOwner := mapGet? ownership previousYearKey
      previousYearOwner ≠ some teamId

/-! ### validateStepienRule (src/lib/tradeValidation.ts, lines 115-158) -/

/-- Message pushed for a locked pick in check 1. -/
def lockMsg (p : TradePickRef) : String :=
  toString p.year ++ " Round " ++ toString p.round ++
    " (locked - previous year's pick not owned)"

/-- Check 1 of `validateStepienRule`: the loop over `picks` that skips
non-round-1 picks and picks not originally owned by the trading team, and
records a violation for every locked pick. -/
def lockViolations (state : State) (fromTeamId : TeamId)
    (picks : List TradePickRef) : List String :=
  picks.filterMap fun pick =>
    if pick.round ≠ 1 ∨ pick.originalOwnerId ≠ fromTeamId then none
    else if isPickLockedByStepienRule state fromTeamId pick.year pick.round then
      some (lockMsg pick)
    else none

/-- `firstRoundPicks.map(p => p.year).sort((a, b) => a - b)`: the ascending
year list of the candidate's round-1 picks originally owned by the trading
team. -/
def sortedFirstRoundYears (fromTeamId : TeamId) (picks : List TradePickRef) : List Int :=
  List.insertionSort (fun a b => a ≤ b)
    ((picks.filter fun p => p.round == 1 && p.originalOwnerId == fromTeamId).map (·.year))

/-- Message pushed for a consecutive pair in check 2. -/
def consecMsg (a b : Int) : String :=
  "Cannot trade consecutive 1st round picks: " ++ toString a ++ " and " ++
    toString b ++ " in the same trade"

/-- Check 2 of `validateStepienRule`: the indexed loop over adjacent entries
of the sorted year list, recording a violation for every gap of exactly 1. -/
def consecViolations : List Int → List String
  | a :: b :: rest =>
    (if b = a + 1 then [consecMsg a b] else []) ++ consecViolations (b :: rest)
  | _ => []

def validateStepienRule (state : State) (fromTeamId : TeamId)
    (picks : List TradePickRef) : ValidationResult :=
  let violations :=
    lockViolations state fromTeamId picks ++
      consecViolations (sortedFirstRoundYears fromTeamId picks)
  if violations.length > 0 then
    { ok := false,
      error := some ("Stepien rule violation: " ++ String.intercalate ". " violations) }
  else { ok := true }

example :
    rebuildOwnership
      { teams := [], basePicks := [⟨2026, 1, "A", "A"⟩],
        trades := [⟨"t1", 5, "A", "B", [⟨2026, 1, "A"⟩], none⟩] }
      = [((2026, 1, "A"), "B")] := by decide

-- Spec scenario: A loses 2026 R1, so its 2027 R1 is locked.
example :
    isPickLockedByStepienRule
      { teams := [], basePicks := [⟨2026, 1, "A", "A"⟩, ⟨2027, 1, "A", "A"⟩],
        trades := [⟨"t1", 5, "A", "B", [⟨2026, 1, "A"⟩], none⟩] }
      "A" 2027 1 = true := by decide

example :
    (validateStepienRule
      { teams := [], basePicks := [⟨2026, 1, "A", "A"⟩, ⟨2027, 1, "A", "A"⟩],
        trades := [⟨"t1", 5, "A", "B", [⟨2026, 1, "A"⟩], none⟩] }
      "A" [⟨2027, 1, "A"⟩]).ok = false := by decide

-- Spec scenario: consecutive-pairs rejection and the gap-of-two acceptance.
example :
    (validateStepienRule
      { teams := [], basePicks := [⟨2026, 1, "A", "A"⟩, ⟨2027, 1, "A", "A"⟩, ⟨2028, 1, "A", "A"⟩],
        trades := [] }
      "A" [⟨2026, 1, "A"⟩, ⟨2027, 1, "A"⟩]).ok = false := by decide

example :
    (validateStepienRule
      { teams := [], basePicks := [⟨2026, 1, "A", "A"⟩, ⟨2027, 1, "A", "A"⟩, ⟨2028, 1, "A", "A"⟩],
        trades := [] }
      "A" [⟨2026, 1, "A"⟩, ⟨2028, 1, "A"⟩]).ok = true := by decide

-- Spec scenario: duplicate detection.
example :
    (validateNoDuplicatePicks [⟨2026, 1, "A"⟩, ⟨2026, 1, "A"⟩]).ok = false := by decide

example :
    (validateNoDuplicatePicks [⟨2026, 1, "A"⟩, ⟨2026, 1, "B"⟩]).ok = true := by decide

/-! ### Lemmas about the map model -/

theorem mapGet?_set_self (m : Ownership) (k : PickKey) (v : TeamId) :
    mapGet? (mapSet m k v) k = some v := by
  induction m with
  | nil => simp [mapSet, mapGet?]
  | cons e m ih =>
    obtain ⟨k', v'⟩ := e
    by_cases h : k' = k <;> simp [mapSet, mapGet?, h, ih]

theorem mapGet?_set_ne (m : Ownership) (k k' : PickKey) (v : TeamId) (h : k' ≠ k) :
    mapGet? (mapSet m k v) k' = mapGet? m k' := by
  induction m with
  | nil => simp [mapSet, mapGet?, Ne.symm h]
  | cons e m ih =>
    obtain ⟨k₀, v₀⟩ := e
    by_cases h0 : k₀ = k
    · subst h0
      simp [mapSet, mapGet?, Ne.symm h]
    · simp [mapSet, mapGet?, h0, ih]

theorem mapGet?_set (m : Ownership) (k : PickKey) (v : TeamId) (k' : PickKey) :
    mapGet? (mapSet m k v) k' = if k' = k then some v else mapGet? m k' := by
  by_cases h : k' = k
  · subst h; simp [mapGet?_set_self]
  · simp [h, mapGet?_set_ne m k k' v h]

theorem mapHas_set (m : Ownership) (k : PickKey) (v : TeamId) (k' : PickKey) :
    mapHas (mapSet m k v) k' = true ↔ (mapHas m k' = true ∨ k' = k) := by
  by_cases h : k' = k
  · subst h; simp [mapHas, mapGet?_set_self]
  · simp [mapHas, mapGet?_set_ne m k k' v h, h]

/-! ### Key-set lemmas for seeding and replay -/

theorem mapHas_seed_foldl (bps : List Pick) (m : Ownership) (k : PickKey) :
    mapHas (bps.foldl (fun acc p => mapSet acc p.key p.currentOwnerId) m) k = true ↔
      (mapHas m k = true ∨ ∃ p ∈ bps, p.key = k) := by
  induction bps generalizing m with
  | nil => simp
  | cons p bps ih =>
    rw [List.foldl_cons, ih]
    simp only [mapHas_set, List.mem_cons]
    constructor
    · rintro (⟨h | h⟩ | ⟨q, hq, hk⟩)
      · exact Or.inl h
      · exact Or.inr ⟨p, Or.inl rfl, h.symm⟩
      · exact Or.inr ⟨q, Or.inr hq, hk⟩
    · rintro (h | ⟨q, hq | hq, hk⟩)
      · exact Or.inl (Or.inl h)
      · exact Or.inl (Or.inr (hq ▸ hk.symm))
      · exact Or.inr ⟨q, hq, hk⟩

theorem mapHas_seed (bps : List Pick) (k : PickKey) :
    mapHas (seedOwnership bps) k = true ↔ ∃ p ∈ bps, p.key = k := by
  rw [seedOwnership, mapHas_seed_foldl]
  simp [mapHas, mapGet?]

theorem applyRef_of_not_has (t : Trade) (m : Ownership) (r : TradePickRef)
    (h : ¬ mapHas m r.key = true) :
    applyRef t m r = m := by
  unfold applyRef
  simp [h]

theorem mapHas_set_of_has (m : Ownership) (k : PickKey) (v : TeamId)
    (h : mapHas m k = true) (k' : PickKey) :
    mapHas (mapSet m k v) k' = mapHas m k' := by
  by_cases h3 : k' = k
  · subst h3
    rw [h]
    simp [mapHas, mapGet?_set_self]
  · simp [mapHas, mapGet?_set_ne m k k' v h3]

theorem mapHas_applyRef (t : Trade) (m : Ownership) (r : TradePickRef) (k : PickKey) :
    mapHas (applyRef t m r) k = mapHas m k := by
  unfold applyRef
  split_ifs with h1 h2
  · exact mapHas_set_of_has m r.key t.toTeamId h1 k
  · rfl
  · rfl

theorem mapHas_applyTrade (m : Ownership) (t : Trade) (k : PickKey) :
    mapHas (applyTrade m t) k = mapHas m k := by
  unfold applyTrade
  induction t.picks generalizing m with
  | nil => rfl
  | cons r rest ih => rw [List.foldl_cons, ih, mapHas_applyRef]

theorem mapHas_replay (l : List Trade) (m : Ownership) (k : PickKey) :
    mapHas (l.foldl applyTrade m) k = mapHas m k := by
  induction l generalizing m with
  | nil => rfl
  | cons t rest ih => rw [List.foldl_cons, ih, mapHas_applyTrade]

theorem mapHas_rebuildOwnership (s : State) (k : PickKey) :
    mapHas (rebuildOwnership s) k = true ↔ ∃ p ∈ s.basePicks, p.key = k := by
  rw [rebuildOwnership, mapHas_replay, mapHas_seed]

/-! ### Characterisation of a single replay step -/

theorem mapGet?_applyRef_self (t : Trade) (m : Ownership) (r : TradePickRef)
    (h : mapHas m r.key = true) (h2 : mapGet? m r.key = some t.fromTeamId) :
    mapGet? (applyRef t m r) r.key = some t.toTeamId := by
  unfold applyRef
  rw [if_pos h, if_pos h2, mapGet?_set_self]

theorem applyRef_of_get_ne (t : Trade) (m : Ownership) (r : TradePickRef)
    (h2 : mapGet? m r.key ≠ some t.fromTeamId) :
    applyRef t m r = m := by
  unfold applyRef
  simp [h2]

/-! ### Value provenance through seeding and replay -/

theorem mapGet?_applyRef_provenance (t : Trade) (m : Ownership) (r : TradePickRef)
    (k : PickKey) (v : TeamId)
    (h : mapGet? (applyRef t m r) k = some v) :
    mapGet? m k = some v ∨ t.toTeamId = v := by
  unfold applyRef at h
  split_ifs at h with h1 h2
  · rw [mapGet?_set] at h
    by_cases h3 : k = r.key
    · rw [if_pos h3] at h
      exact Or.inr (Option.some.inj h)
    · rw [if_neg h3] at h
      exact Or.inl h
  · exact Or.inl h
  · exact Or.inl h

theorem mapGet?_applyTrade_provenance (t : Trade) (m : Ownership) (k : PickKey) (v : TeamId)
    (h : mapGet? (applyTrade m t) k = some v) :
    mapGet? m k = some v ∨ t.toTeamId = v := by
  unfold applyTrade at h
  generalize t.picks = ps at h
  induction ps generalizing m with
  | nil => exact Or.inl h
  | cons r rest ih =>
    rw [List.foldl_cons] at h
    rcases ih (applyRef t m r) h with h' | h'
    · exact mapGet?_applyRef_provenance t m r k v h'
    · exact Or.inr h'

theorem mapGet?_replay_provenance (l : List Trade) (m : Ownership) (k : PickKey) (v : TeamId)
    (h : mapGet? (l.foldl applyTrade m) k = some v) :
    mapGet? m k = some v ∨ ∃ t ∈ l, t.toTeamId = v := by
  induction l generalizing m with
  | nil => exact Or.inl h
  | cons t rest ih =>
    rw [List.foldl_cons] at h
    rcases ih (applyTrade m t) h with h' | ⟨u, hu, hv⟩
    · rcases mapGet?_applyTrade_provenance t m k v h' with h'' | h''
      · exact Or.inl h''
      · exact Or.inr ⟨t, List.mem_cons_self t rest, h''⟩
    · exact Or.inr ⟨u, List.mem_cons_of_mem t hu, hv⟩

theorem mapGet?_seed_foldl_provenance (bps : List Pick) (m : Ownership) (k : PickKey)
    (v : TeamId)
    (h : mapGet? (bps.foldl (fun acc p => mapSet acc p.key p.currentOwnerId) m) k = some v) :
    mapGet? m k = some v ∨ ∃ p ∈ bps, p.key = k ∧ p.currentOwnerId = v := by
  induction bps generalizing m with
  | nil => exact Or.inl h
  | cons p bps ih =>
    rw [List.foldl_cons] at h
    rcases ih _ h with h' | ⟨q, hq, hk, hv⟩
    · rw [mapGet?_set] at h'
      by_cases h3 : k = p.key
      · rw [if_pos h3] at h'
        exact Or.inr ⟨p, List.mem_cons_self p bps, h3.symm, Option.some.inj h'⟩
      · rw [if_neg h3] at h'
        exact Or.inl h'
    · exact Or.inr ⟨q, List.mem_cons_of_mem p hq, hk, hv⟩

theorem mapGet?_seed_provenance (bps : List Pick) (k : PickKey) (v : TeamId)
    (h : mapGet? (seedOwnership bps) k = some v) :
    ∃ p ∈ bps, p.key = k ∧ p.currentOwnerId = v := by
  rcases mapGet?_seed_foldl_provenance bps [] k v h with h' | h'
  · simp [mapGet?] at h'
  · exact h'

/-! ### Sorting facts -/

instance : IsTotal Trade (fun a b => a.createdAt ≤ b.createdAt) :=
  ⟨fun a b => Int.le_total a.createdAt b.createdAt⟩

instance : IsTrans Trade (fun a b => a.createdAt ≤ b.createdAt) :=
  ⟨fun _ _ _ hab hbc => le_trans hab hbc⟩

theorem sortTrades_sorted (l : List Trade) :
    (sortTrades l).Sorted (fun a b => a.createdAt ≤ b.createdAt) :=
  List.sorted_insertionSort _ l

theorem sortTrades_perm (l : List Trade) : List.Perm (sortTrades l) l :=
  List.perm_insertionSort _ l

/-- Two sorted permutations of each other with pairwise-distinct `createdAt`
values are equal. -/
theorem sorted_perm_distinct_eq :
    ∀ l₁ l₂ : List Trade, List.Perm l₁ l₂ →
      l₁.Sorted (fun a b => a.createdAt ≤ b.createdAt) →
      l₂.Sorted (fun a b => a.createdAt ≤ b.createdAt) →
      l₁.Pairwise (fun a b => a.createdAt ≠ b.createdAt) →
      l₁ = l₂
  | [], l₂, hp, _, _, _ => hp.nil_eq
  | a :: t₁, l₂, hp, hs₁, hs₂, hd => by
    cases l₂ with
    | nil => exact absurd hp.eq_nil (List.cons_ne_nil a t₁)
    | cons b t₂ =>
      have hab : a = b := by
        rcases List.mem_cons.mp (hp.subset (List.mem_cons_self a t₁)) with h | ha3
        · exact h
        · rcases List.mem_cons.mp (hp.symm.subset (List.mem_cons_self b t₂)) with h | hb3
          · exact h.symm
          · have h1 : a.createdAt ≤ b.createdAt := List.rel_of_sorted_cons hs₁ b hb3
            have h2 : b.createdAt ≤ a.createdAt := List.rel_of_sorted_cons hs₂ a ha3
            have hne : a.createdAt ≠ b.createdAt := (List.pairwise_cons.mp hd).1 b hb3
            exact absurd (le_antisymm h1 h2) hne
      subst hab
      rw [sorted_perm_distinct_eq t₁ t₂ hp.cons_inv hs₁.of_cons hs₂.of_cons
        (List.pairwise_cons.mp hd).2]

/-! ### Replaying with references to non-baseline keys removed -/

/-- Remove from a trade every pick reference bearing a given identity key. -/
def dropKeyFromTrade (k : PickKey) (t : Trade) : Trade :=
  { t with picks := t.picks.filter fun r => !(r.key == k) }

theorem orderedInsert_map_createdAt (f : Trade → Trade)
    (hf : ∀ t, (f t).createdAt = t.createdAt) (a : Trade) :
    ∀ l : List Trade,
      (List.orderedInsert (fun x y => x.createdAt ≤ y.createdAt) a l).map f =
        List.orderedInsert (fun x y => x.createdAt ≤ y.createdAt) (f a) (l.map f)
  | [] => rfl
  | b :: l => by
    have hc : ((f a).createdAt ≤ (f b).createdAt) ↔ (a.createdAt ≤ b.createdAt) := by
      rw [hf, hf]
    simp only [List.orderedInsert, List.map_cons]
    by_cases h : a.createdAt ≤ b.createdAt
    · rw [if_pos h, if_pos (hc.mpr h), List.map_cons, List.map_cons]
    · rw [if_neg h, if_neg (fun hh => h (hc.mp hh)), List.map_cons,
        orderedInsert_map_createdAt f hf a l]

theorem sortTrades_map_createdAt (f : Trade → Trade)
    (hf : ∀ t, (f t).createdAt = t.createdAt) :
    ∀ l : List Trade, sortTrades (l.map f) = (sortTrades l).map f
  | [] => rfl
  | a :: l => by
    simp only [sortTrades, List.map_cons, List.insertionSort]
    rw [show List.insertionSort (fun x y : Trade => x.createdAt ≤ y.createdAt) (l.map f)
          = sortTrades (l.map f) from rfl,
      sortTrades_map_createdAt f hf l]
    exact (orderedInsert_map_createdAt f hf a
      (List.insertionSort (fun x y : Trade => x.createdAt ≤ y.createdAt) l)).symm

theorem applyTrade_dropKey (t : Trade) (m : Ownership) (k : PickKey)
    (hk : mapHas m k = false) :
    applyTrade m (dropKeyFromTrade k t) = applyTrade m t := by
  show List.foldl (applyRef (dropKeyFromTrade k t)) m
      (t.picks.filter fun r => !(r.key == k)) = List.foldl (applyRef t) m t.picks
  have hfr : applyRef (dropKeyFromTrade k t) = applyRef t := rfl
  rw [hfr]
  generalize t.picks = ps
  induction ps generalizing m hk with
  | nil => rfl
  | cons r rest ih =>
    by_cases h : r.key = k
    · have hb : (!(r.key == k)) = false := by simp [h]
      rw [List.filter_cons, hb, if_neg (by simp), List.foldl_cons,
        applyRef_of_not_has t m r (by rw [h, hk]; simp)]
      exact ih m hk
    · have hb : (!(r.key == k)) = true := by simp [h]
      rw [List.filter_cons, hb, if_pos rfl, List.foldl_cons, List.foldl_cons]
      exact ih (applyRef t m r) (by rw [mapHas_applyRef]; exact hk)

theorem replay_dropKey (l : List Trade) (m : Ownership) (k : PickKey)
    (hk : mapHas m k = false) :
    (l.map (dropKeyFromTrade k)).foldl applyTrade m = l.foldl applyTrade m := by
  induction l generalizing m hk with
  | nil => rfl
  | cons t rest ih =>
    rw [List.map_cons, List.foldl_cons, List.foldl_cons, applyTrade_dropKey t m k hk]
    exact ih (applyTrade m t) (by rw [mapHas_applyTrade]; exact hk)

/-! ### Lemmas about the duplicate scan -/

theorem dupScan_snd_append (l : List TradePickRef) :
    ∀ (seen : List PickKey) (dups : List String),
      (dupScan seen dups l).2 = dups ++ (dupScan seen [] l).2 := by
  induction l with
  | nil => intro seen dups; simp [dupScan]
  | cons p rest ih =>
    intro seen dups
    by_cases h : p.key ∈ seen
    · simp only [dupScan, if_pos h, List.nil_append]
      rw [ih seen (dups ++ [dupMsg p]), ih seen [dupMsg p], List.append_assoc]
    · simp only [dupScan, if_neg h]
      exact ih (seen ++ [p.key]) dups

theorem dupScan_empty_iff (l : List TradePickRef) :
    ∀ seen : List PickKey,
      ((dupScan seen [] l).2 = [] ↔
        (l.map TradePickRef.key).Nodup ∧ ∀ p ∈ l, p.key ∉ seen) := by
  induction l with
  | nil => intro seen; simp [dupScan]
  | cons p rest ih =>
    intro seen
    by_cases h : p.key ∈ seen
    · simp only [dupScan, if_pos h, List.nil_append]
      rw [dupScan_snd_append]
      constructor
      · intro hh
        exact absurd hh (by simp)
      · rintro ⟨_, hall⟩
        exact absurd h (hall p (List.mem_cons_self p rest))
    · simp only [dupScan, if_neg h]
      rw [ih (seen ++ [p.key])]
      constructor
      · rintro ⟨hnd, hall⟩
        refine ⟨?_, ?_⟩
        · rw [List.map_cons, List.nodup_cons]
          refine ⟨?_, hnd⟩
          intro hmem
          obtain ⟨q, hq, hqk⟩ := List.mem_map.mp hmem
          exact (hall q hq) (by rw [hqk]; simp)
        · intro q hq
          rcases List.mem_cons.mp hq with rfl | hq'
          · exact h
          · intro hs
            exact (hall q hq') (by simp [hs])
      · rintro ⟨hnd, hall⟩
        rw [List.map_cons, List.nodup_cons] at hnd
        refine ⟨hnd.2, ?_⟩
        intro q hq
        simp only [List.mem_append, List.mem_singleton]
        rintro (hs | hs)
        · exact (hall q (List.mem_cons_of_mem p hq)) hs
        · exact hnd.1 (hs ▸ List.mem_map_of_mem TradePickRef.key hq)

theorem dupScan_mem_of_count (l : List TradePickRef) :
    ∀ (seen : List PickKey) (k : PickKey),
      ((k ∈ seen ∧ 1 ≤ (l.map TradePickRef.key).count k) ∨
        2 ≤ (l.map TradePickRef.key).count k) →
      ∃ p ∈ l, p.key = k ∧ dupMsg p ∈ (dupScan seen [] l).2 := by
  induction l with
  | nil =>
    intro seen k h
    simp only [List.map_nil, List.count_nil] at h
    omega
  | cons p rest ih =>
    intro seen k h
    have hcount : ((p :: rest).map TradePickRef.key).count k =
        (rest.map TradePickRef.key).count k + if p.key = k then 1 else 0 := by
      simp only [List.map_cons, List.count_cons, beq_iff_eq]
    by_cases hpk : p.key = k
    · by_cases hs : p.key ∈ seen
      · refine ⟨p, List.mem_cons_self p rest, hpk, ?_⟩
        simp only [dupScan, if_pos hs, List.nil_append]
        rw [dupScan_snd_append]
        simp
      · simp only [dupScan, if_neg hs]
        have hrest : 1 ≤ (rest.map TradePickRef.key).count k := by
          rcases h with ⟨hk, _⟩ | h2
          · exact absurd (hpk ▸ hk) hs
          · rw [hcount, if_pos hpk] at h2
            omega
        obtain ⟨q, hq, hqk, hmem⟩ :=
          ih (seen ++ [p.key]) k (Or.inl ⟨by simp [hpk], hrest⟩)
        exact ⟨q, List.mem_cons_of_mem p hq, hqk, hmem⟩
    · have hcnt : ((p :: rest).map TradePickRef.key).count k =
          (rest.map TradePickRef.key).count k := by
        rw [hcount, if_neg hpk, Nat.add_zero]
      rw [hcnt] at h
      by_cases hs : p.key ∈ seen
      · simp only [dupScan, if_pos hs, List.nil_append]
        rw [dupScan_snd_append]
        obtain ⟨q, hq, hqk, hmem⟩ := ih seen k h
        exact ⟨q, List.mem_cons_of_mem p hq, hqk, List.mem_append_right _ hmem⟩
      · simp only [dupScan, if_neg hs]
        have h' : (k ∈ seen ++ [p.key] ∧ 1 ≤ (rest.map TradePickRef.key).count k) ∨
            2 ≤ (rest.map TradePickRef.key).count k := by
          rcases h with ⟨hk, hc⟩ | h2
          · exact Or.inl ⟨List.mem_append_left _ hk, hc⟩
          · exact Or.inr h2
        obtain ⟨q, hq, hqk, hmem⟩ := ih (seen ++ [p.key]) k h'
        exact ⟨q, List.mem_cons_of_mem p hq, hqk, hmem⟩

/-! ### Lemmas about the consecutive-pair check -/

/-- Some adjacent pair of entries of the list differs by exactly 1. -/
def hasConsecutivePair : List Int → Bool
  | a :: b :: rest => (b == a + 1) || hasConsecutivePair (b :: rest)
  | _ => false

theorem consecViolations_eq_nil_iff :
    ∀ l : List Int, consecViolations l = [] ↔ hasConsecutivePair l = false
  | [] => by simp [consecViolations, hasConsecutivePair]
  | [a] => by simp [consecViolations, hasConsecutivePair]
  | a :: b :: rest => by
    rw [consecViolations, hasConsecutivePair]
    by_cases h : b = a + 1
    · simp [h]
    · simp only [if_neg h, List.nil_append, Bool.or_eq_true, beq_iff_eq, h,
        false_or, Bool.or_eq_false_iff, beq_eq_false_iff_ne, ne_eq,
        not_false_iff, true_and]
      exact consecViolations_eq_nil_iff (b :: rest)

/-! ### Lemmas about the Stepien violation lists -/

theorem lockViolations_mem (s : State) (T : TeamId) (picks : List TradePickRef)
    (r : TradePickRef) (hr : r ∈ picks) (h1 : r.round = 1) (h2 : r.originalOwnerId = T)
    (hl : isPickLockedByStepienRule s T r.year r.round = true) :
    lockMsg r ∈ lockViolations s T picks := by
  unfold lockViolations
  rw [List.mem_filterMap]
  refine ⟨r, hr, ?_⟩
  have hcond : ¬(r.round ≠ 1 ∨ r.originalOwnerId ≠ T) := by
    push_neg
    exact ⟨h1, h2⟩
  rw [if_neg hcond, if_pos hl]

theorem validateStepienRule_reject (s : State) (T : TeamId) (picks : List TradePickRef)
    (h : lockViolations s T picks ≠ [] ∨
      consecViolations (sortedFirstRoundYears T picks) ≠ []) :
    (validateStepienRule s T picks).ok = false ∧
    (validateStepienRule s T picks).error = some ("Stepien rule violation: " ++
      String.intercalate ". " (lockViolations s T picks ++
        consecViolations (sortedFirstRoundYears T picks))) := by
  have hlen : (lockViolations s T picks ++
      consecViolations (sortedFirstRoundYears T picks)).length > 0 := by
    rw [List.length_append]
    rcases h with h | h
    · have := List.length_pos.mpr h
      omega
    · have := List.length_pos.mpr h
      omega
  simp only [validateStepienRule]
  rw [if_pos hlen]
  exact ⟨rfl, rfl⟩

theorem any_prevYear_iff (s : State) (T : TeamId) (Y : Int) :
    (s.basePicks.any fun p =>
      p.year == Y - 1 && p.round == 1 && p.originalOwnerId == T) = true ↔
      ∃ p ∈ s.basePicks, p.year = Y - 1 ∧ p.round = 1 ∧ p.originalOwnerId = T := by
  simp [List.any_eq_true, Bool.and_eq_true, beq_iff_eq, and_assoc]

theorem isPickLocked_iff (s : State) (T : TeamId) (Y : Int) :
    isPickLockedByStepienRule s T Y 1 = true ↔
      ((∃ p ∈ s.basePicks, p.year = Y - 1 ∧ p.round = 1 ∧ p.originalOwnerId = T) ∧
        mapGet? (rebuildOwnership s) (Y - 1, 1, T) ≠ some T) := by
  unfold isPickLockedByStepienRule
  rw [if_neg (show ¬((1 : Int) ≠ 1) by simp)]
  by_cases hb : (s.basePicks.any fun p =>
      p.year == Y - 1 && p.round == 1 && p.originalOwnerId == T) = true
  · simp only [hb, Bool.not_true, Bool.false_eq_true, if_false, decide_eq_true_eq]
    rw [and_iff_right ((any_prevYear_iff s T Y).mp hb)]
  · have hb' : (s.basePicks.any fun p =>
        p.year == Y - 1 && p.round == 1 && p.originalOwnerId == T) = false :=
      Bool.eq_false_iff.mpr hb
    simp only [hb', Bool.not_false, if_true, Bool.false_eq_true, false_iff, not_and]
    intro hex
    exact absurd ((any_prevYear_iff s T Y).mpr hex) hb

/-! ## Claim theorems -/

/-- C3: replay processes the trades in ascending `createdAt` order; for each
pick reference whose identity key is present in the mapping, the entry is
reassigned to the trade's `toTeamId` exactly when its current value equals
the trade's `fromTeamId`, and when the current value differs the mapping is
returned unchanged (no error is produced). -/
theorem replay_reassignment_semantics :
    (∀ s : State,
      rebuildOwnership s =
        (sortTrades s.trades).foldl applyTrade (seedOwnership s.basePicks) ∧
      (sortTrades s.trades).Sorted (fun a b => a.createdAt ≤ b.createdAt) ∧
      List.Perm (sortTrades s.trades) s.trades)
    ∧ (∀ (t : Trade) (m : Ownership) (r : TradePickRef),
      mapHas m r.key = true →
      (mapGet? m r.key = some t.fromTeamId →
        mapGet? (applyRef t m r) r.key = some t.toTeamId) ∧
      (mapGet? m r.key ≠ some t.fromTeamId → applyRef t m r = m)) :=
  ⟨fun s => ⟨rfl, sortTrades_sorted s.trades, sortTrades_perm s.trades⟩,
   fun t m r h => ⟨fun h2 => mapGet?_applyRef_self t m r h h2,
     fun h2 => applyRef_of_get_ne t m r h2⟩⟩

theorem replay_reassignment_semantics_witness :
    mapHas [(((2026 : Int), (1 : Int), "A"), "A")]
      (TradePickRef.key ⟨2026, 1, "A"⟩) = true ∧
    mapGet? (applyRef ⟨"t1", 0, "A", "B", [⟨2026, 1, "A"⟩], none⟩
        [(((2026 : Int), (1 : Int), "A"), "A")] ⟨2026, 1, "A"⟩)
      (TradePickRef.key ⟨2026, 1, "A"⟩) = some "B" :=
  ⟨by decide,
   (replay_reassignment_semantics.2 ⟨"t1", 0, "A", "B", [⟨2026, 1, "A"⟩], none⟩
     [(((2026 : Int), (1 : Int), "A"), "A")] ⟨2026, 1, "A"⟩ (by decide)).1 (by decide)⟩

/-- C5 (amended): every identity key present in the baseline is mapped by
`rebuildOwnership` to a defined team id, which is either the baseline
`currentOwnerId` of a pick bearing that key or the `toTeamId` of some trade
in the log — never an undefined value. -/
theorem ownership_conservation (s : State) (k : PickKey)
    (h : ∃ p ∈ s.basePicks, p.key = k) :
    ∃ v : TeamId, mapGet? (rebuildOwnership s) k = some v ∧
      ((∃ p ∈ s.basePicks, p.key = k ∧ p.currentOwnerId = v) ∨
        ∃ t ∈ s.trades, t.toTeamId = v) := by
  have hh : mapHas (rebuildOwnership s) k = true := (mapHas_rebuildOwnership s k).mpr h
  obtain ⟨v, hv⟩ := Option.isSome_iff_exists.mp hh
  refine ⟨v, hv, ?_⟩
  rw [rebuildOwnership] at hv
  rcases mapGet?_replay_provenance _ _ _ _ hv with h1 | ⟨t, ht, htv⟩
  · exact Or.inl (mapGet?_seed_provenance _ _ _ h1)
  · exact Or.inr ⟨t, (sortTrades_perm s.trades).subset ht, htv⟩

theorem ownership_conservation_witness :
    (∃ p ∈ (State.mk [] [⟨2026, 1, "A", "A"⟩] []).basePicks,
      p.key = ((2026 : Int), (1 : Int), "A")) ∧
    ∃ v : TeamId,
      mapGet? (rebuildOwnership (State.mk [] [⟨2026, 1, "A", "A"⟩] []))
        ((2026 : Int), (1 : Int), "A") = some v ∧
      ((∃ p ∈ (State.mk [] [⟨2026, 1, "A", "A"⟩] []).basePicks,
          p.key = ((2026 : Int), (1 : Int), "A") ∧ p.currentOwnerId = v) ∨
        ∃ t ∈ (State.mk [] [⟨2026, 1, "A", "A"⟩] []).trades, t.toTeamId = v) :=
  ⟨⟨⟨2026, 1, "A", "A"⟩, by decide, by decide⟩,
   ownership_conservation _ _ ⟨⟨2026, 1, "A", "A"⟩, by decide, by decide⟩⟩

/-- C5 counterexample: a baseline pick originally owned by "A" but owned by
"B" at baseline, with an empty trade log, is mapped to "B" — which is
neither the pick's original owner nor the `toTeamId` of any trade. -/
theorem ownership_conservation_counterexample :
    mapGet? (rebuildOwnership (State.mk [] [⟨2026, 1, "A", "B"⟩] []))
      ((2026 : Int), (1 : Int), "A") = some "B" ∧
    ¬(("B" : TeamId) = "A" ∨
      ∃ t ∈ (State.mk [] [⟨2026, 1, "A", "B"⟩] []).trades, t.toTeamId = "B") := by
  constructor
  · decide
  · decide

/-- C6: the key set of the rebuilt mapping is exactly the set of baseline
identity keys; a pick reference whose identity key is absent from the
baseline creates no new entry, raises no error, and removing every reference
bearing such a key from the trade log leaves the mapping unchanged. -/
theorem ownership_keys_baseline :
    (∀ (s : State) (k : PickKey),
      mapHas (rebuildOwnership s) k = true ↔ ∃ p ∈ s.basePicks, p.key = k)
    ∧ (∀ (s : State) (k : PickKey),
      (¬ ∃ p ∈ s.basePicks, p.key = k) →
      rebuildOwnership { s with trades := s.trades.map (dropKeyFromTrade k) } =
        rebuildOwnership s) := by
  refine ⟨mapHas_rebuildOwnership, ?_⟩
  intro s k h
  have hk : mapHas (seedOwnership s.basePicks) k = false := by
    rcases Bool.eq_false_or_eq_true (mapHas (seedOwnership s.basePicks) k) with ht | hf
    · exact absurd ((mapHas_seed s.basePicks k).mp ht) h
    · exact hf
  show (sortTrades (s.trades.map (dropKeyFromTrade k))).foldl applyTrade
      (seedOwnership s.basePicks) = rebuildOwnership s
  rw [sortTrades_map_createdAt (dropKeyFromTrade k) (fun t => rfl) s.trades]
  exact replay_dropKey (sortTrades s.trades) (seedOwnership s.basePicks) k hk

theorem ownership_keys_baseline_witness :
    (mapHas (rebuildOwnership (State.mk [] [⟨2026, 1, "A", "A"⟩]
        [⟨"t1", 0, "A", "B", [⟨2030, 1, "Z"⟩], none⟩]))
      ((2026 : Int), (1 : Int), "A") = true) ∧
    rebuildOwnership (State.mk [] [⟨2026, 1, "A", "A"⟩]
        (List.map (dropKeyFromTrade ((2030 : Int), (1 : Int), "Z"))
          [⟨"t1", 0, "A", "B", [⟨2030, 1, "Z"⟩], none⟩])) =
      rebuildOwnership (State.mk [] [⟨2026, 1, "A", "A"⟩]
        [⟨"t1", 0, "A", "B", [⟨2030, 1, "Z"⟩], none⟩]) :=
  ⟨(ownership_keys_baseline.1 _ _).mpr ⟨⟨2026, 1, "A", "A"⟩, by decide, by decide⟩,
   ownership_keys_baseline.2
     (State.mk [] [⟨2026, 1, "A", "A"⟩] [⟨"t1", 0, "A", "B", [⟨2030, 1, "Z"⟩], none⟩])
     ((2030 : Int), (1 : Int), "Z") (by decide)⟩

/-- C7 counterexample: the replay sort is stable, so two trades with equal
`createdAt` are applied in storage order — swapping them in the stored list
changes the derived mapping even though the lists are permutations. -/
theorem trade_order_counterexample :
    List.Perm
      (State.mk [] [⟨2026, 1, "A", "A"⟩]
        [⟨"t1", 0, "A", "B", [⟨2026, 1, "A"⟩], none⟩,
         ⟨"t2", 0, "A", "C", [⟨2026, 1, "A"⟩], none⟩]).trades
      (State.mk [] [⟨2026, 1, "A", "A"⟩]
        [⟨"t2", 0, "A", "C", [⟨2026, 1, "A"⟩], none⟩,
         ⟨"t1", 0, "A", "B", [⟨2026, 1, "A"⟩], none⟩]).trades ∧
    rebuildOwnership (State.mk [] [⟨2026, 1, "A", "A"⟩]
        [⟨"t1", 0, "A", "B", [⟨2026, 1, "A"⟩], none⟩,
         ⟨"t2", 0, "A", "C", [⟨2026, 1, "A"⟩], none⟩]) ≠
      rebuildOwnership (State.mk [] [⟨2026, 1, "A", "A"⟩]
        [⟨"t2", 0, "A", "C", [⟨2026, 1, "A"⟩], none⟩,
         ⟨"t1", 0, "A", "B", [⟨2026, 1, "A"⟩], none⟩]) := by
  constructor
  · exact List.Perm.swap _ _ _
  · decide

/-- C7 (amended): when the `createdAt` values of the stored trades are
pairwise distinct, every permutation of the stored trades list produces the
same ownership mapping — only the `createdAt` values determine the result. -/
theorem rebuild_perm_invariant (s : State) (l : List Trade)
    (hd : s.trades.Pairwise (fun a b => a.createdAt ≠ b.createdAt))
    (hp : List.Perm l s.trades) :
    rebuildOwnership { s with trades := l } = rebuildOwnership s := by
  have hsym : Symmetric (fun a b : Trade => a.createdAt ≠ b.createdAt) :=
    fun a b h => Ne.symm h
  have hperm : List.Perm (sortTrades l) (sortTrades s.trades) :=
    (sortTrades_perm l).trans (hp.trans (sortTrades_perm s.trades).symm)
  have hd' : (sortTrades l).Pairwise (fun a b => a.createdAt ≠ b.createdAt) :=
    (((sortTrades_perm l).trans hp).pairwise_iff (fun hab => Ne.symm hab)).mpr hd
  have heq : sortTrades l = sortTrades s.trades :=
    sorted_perm_distinct_eq _ _ hperm (sortTrades_sorted l)
      (sortTrades_sorted s.trades) hd'
  show (sortTrades l).foldl applyTrade (seedOwnership s.basePicks) =
    rebuildOwnership s
  rw [heq]
  rfl

theorem rebuild_perm_invariant_witness :
    rebuildOwnership (State.mk [] [⟨2026, 1, "A", "A"⟩]
        [⟨"t2", 1, "A", "C", [⟨2026, 1, "A"⟩], none⟩,
         ⟨"t1", 0, "A", "B", [⟨2026, 1, "A"⟩], none⟩]) =
      rebuildOwnership (State.mk [] [⟨2026, 1, "A", "A"⟩]
        [⟨"t1", 0, "A", "B", [⟨2026, 1, "A"⟩], none⟩,
         ⟨"t2", 1, "A", "C", [⟨2026, 1, "A"⟩], none⟩]) :=
  rebuild_perm_invariant
    (State.mk [] [⟨2026, 1, "A", "A"⟩]
      [⟨"t1", 0, "A", "B", [⟨2026, 1, "A"⟩], none⟩,
       ⟨"t2", 1, "A", "C", [⟨2026, 1, "A"⟩], none⟩])
    [⟨"t2", 1, "A", "C", [⟨2026, 1, "A"⟩], none⟩,
     ⟨"t1", 0, "A", "B", [⟨2026, 1, "A"⟩], none⟩]
    (by decide) (List.Perm.swap _ _ _)

/-- C1: a round-1 candidate pick originally owned by the trade's
`fromTeamId` T is reported locked iff (a) the baseline contains a round-1
pick for the previous year originally owned by T, and (b) the ownership
mapping rebuilt from the existing state assigns that previous-year pick to a
team other than T; and `validateStepienRule` rejects any trade containing a
locked pick. -/
theorem stepien_lock_characterization :
    (∀ (s : State) (T : TeamId) (Y : Int),
      isPickLockedByStepienRule s T Y 1 = true ↔
        ((∃ p ∈ s.basePicks, p.year = Y - 1 ∧ p.round = 1 ∧ p.originalOwnerId = T) ∧
          ∃ o : TeamId, mapGet? (rebuildOwnership s) (Y - 1, 1, T) = some o ∧ o ≠ T))
    ∧ (∀ (s : State) (T : TeamId) (picks : List TradePickRef) (r : TradePickRef),
      r ∈ picks → r.round = 1 → r.originalOwnerId = T →
      isPickLockedByStepienRule s T r.year r.round = true →
      (validateStepienRule s T picks).ok = false) := by
  constructor
  · intro s T Y
    rw [isPickLocked_iff]
    constructor
    · rintro ⟨hex, hne⟩
      have hhas : mapHas (rebuildOwnership s) (Y - 1, 1, T) = true := by
        apply (mapHas_rebuildOwnership s _).mpr
        obtain ⟨p, hpm, h1, h2, h3⟩ := hex
        exact ⟨p, hpm, by simp [Pick.key, h1, h2, h3]⟩
      obtain ⟨o, ho⟩ := Option.isSome_iff_exists.mp hhas
      refine ⟨hex, o, ho, ?_⟩
      intro hoT
      exact hne (hoT ▸ ho)
    · rintro ⟨hex, o, ho, hne⟩
      refine ⟨hex, fun hT => ?_⟩
      rw [ho] at hT
      exact hne (Option.some.inj hT)
  · intro s T picks r hr h1 h2 hl
    exact (validateStepienRule_reject s T picks
      (Or.inl (List.ne_nil_of_mem (lockViolations_mem s T picks r hr h1 h2 hl)))).1

theorem stepien_lock_characterization_witness :
    isPickLockedByStepienRule
      (State.mk [] [⟨2026, 1, "A", "A"⟩, ⟨2027, 1, "A", "A"⟩]
        [⟨"t1", 5, "A", "B", [⟨2026, 1, "A"⟩], none⟩]) "A" 2027 1 = true ∧
    (validateStepienRule
      (State.mk [] [⟨2026, 1, "A", "A"⟩, ⟨2027, 1, "A", "A"⟩]
        [⟨"t1", 5, "A", "B", [⟨2026, 1, "A"⟩], none⟩])
      "A" [⟨2027, 1, "A"⟩]).ok = false :=
  ⟨(stepien_lock_characterization.1 _ "A" 2027).mpr
     ⟨⟨⟨2026, 1, "A", "A"⟩, by decide, by decide⟩, "B", by decide, by decide⟩,
   stepien_lock_characterization.2 _ "A" _ ⟨2027, 1, "A"⟩ (by decide) rfl rfl (by decide)⟩

/-- C2: the consecutive-pairs sub-rule — `sortedFirstRoundYears` is the
ascending-sorted year list of the candidate's own round-1 picks originally
owned by the trading team; an adjacent pair differing by exactly 1 rejects
the trade; picks of other rounds or other original owners never influence
the check; and with no adjacent pair differing by 1 this sub-rule records no
violation. -/
theorem stepien_consecutive_pairs :
    (∀ (T : TeamId) (picks : List TradePickRef),
      (sortedFirstRoundYears T picks).Sorted (fun a b : Int => a ≤ b) ∧
      List.Perm (sortedFirstRoundYears T picks)
        ((picks.filter fun p => p.round == 1 && p.originalOwnerId == T).map (·.year)))
    ∧ (∀ (s : State) (T : TeamId) (picks : List TradePickRef),
      hasConsecutivePair (sortedFirstRoundYears T picks) = true →
      (validateStepienRule s T picks).ok = false)
    ∧ (∀ (s : State) (T : TeamId) (picks : List TradePickRef) (q : TradePickRef),
      q.round ≠ 1 ∨ q.originalOwnerId ≠ T →
      validateStepienRule s T (q :: picks) = validateStepienRule s T picks)
    ∧ (∀ (T : TeamId) (picks : List TradePickRef),
      hasConsecutivePair (sortedFirstRoundYears T picks) = false →
      consecViolations (sortedFirstRoundYears T picks) = []) := by
  refine ⟨?_, ?_, ?_, ?_⟩
  · intro T picks
    exact ⟨List.sorted_insertionSort _ _, List.perm_insertionSort _ _⟩
  · intro s T picks hc
    have hcons : consecViolations (sortedFirstRoundYears T picks) ≠ [] := by
      intro hnil
      rw [consecViolations_eq_nil_iff, hc] at hnil
      cases hnil
    exact (validateStepienRule_reject s T picks (Or.inr hcons)).1
  · intro s T picks q hq
    have hb : (q.round == 1 && q.originalOwnerId == T) = false := by
      rcases hq with h | h <;> simp [h]
    have h1 : lockViolations s T (q :: picks) = lockViolations s T picks := by
      unfold lockViolations
      rw [List.filterMap_cons_none]
      rw [if_pos hq]
    have h2 : sortedFirstRoundYears T (q :: picks) = sortedFirstRoundYears T picks := by
      unfold sortedFirstRoundYears
      rw [List.filter_cons, hb]
      simp
    simp only [validateStepienRule, h1, h2]
  · intro T picks hc
    rw [consecViolations_eq_nil_iff]
    exact hc

theorem stepien_consecutive_pairs_witness :
    (validateStepienRule (State.mk [] [] []) "A"
      [⟨2026, 1, "A"⟩, ⟨2027, 1, "A"⟩]).ok = false ∧
    validateStepienRule (State.mk [] [] []) "A"
        (⟨2026, 2, "B"⟩ :: [⟨2026, 1, "A"⟩]) =
      validateStepienRule (State.mk [] [] []) "A" [⟨2026, 1, "A"⟩] ∧
    consecViolations (sortedFirstRoundYears "A" [⟨2026, 1, "A"⟩, ⟨2028, 1, "A"⟩]) = [] :=
  ⟨stepien_consecutive_pairs.2.1 _ "A" _ (by decide),
   stepien_consecutive_pairs.2.2.1 _ "A" _ _ (by decide),
   stepien_consecutive_pairs.2.2.2 "A" _ (by decide)⟩

/-- C8: when a candidate trade violates both the lock sub-rule and the
consecutive-pairs sub-rule, each violation is detected independently and
both are combined into a single rejection message. -/
theorem stepien_combined_violations :
    ∀ (s : State) (T : TeamId) (picks : List TradePickRef),
      (∃ r ∈ picks, r.round = 1 ∧ r.originalOwnerId = T ∧
        isPickLockedByStepienRule s T r.year r.round = true) →
      hasConsecutivePair (sortedFirstRoundYears T picks) = true →
      (validateStepienRule s T picks).ok = false ∧
      lockViolations s T picks ≠ [] ∧
      consecViolations (sortedFirstRoundYears T picks) ≠ [] ∧
      (validateStepienRule s T picks).error =
        some ("Stepien rule violation: " ++ String.intercalate ". "
          (lockViolations s T picks ++
            consecViolations (sortedFirstRoundYears T picks))) := by
  rintro s T picks ⟨r, hr, h1, h2, hl⟩ hc
  have hlock : lockViolations s T picks ≠ [] :=
    List.ne_nil_of_mem (lockViolations_mem s T picks r hr h1 h2 hl)
  have hcons : consecViolations (sortedFirstRoundYears T picks) ≠ [] := by
    intro hnil
    rw [consecViolations_eq_nil_iff, hc] at hnil
    cases hnil
  obtain ⟨hok, herr⟩ := validateStepienRule_reject s T picks (Or.inl hlock)
  exact ⟨hok, hlock, hcons, herr⟩

theorem stepien_combined_violations_witness :
    (validateStepienRule
      (State.mk [] [⟨2025, 1, "A", "A"⟩, ⟨2026, 1, "A", "A"⟩, ⟨2027, 1, "A", "A"⟩]
        [⟨"t1", 5, "A", "B", [⟨2025, 1, "A"⟩], none⟩])
      "A" [⟨2026, 1, "A"⟩, ⟨2027, 1, "A"⟩]).ok = false :=
  (stepien_combined_violations
    (State.mk [] [⟨2025, 1, "A", "A"⟩, ⟨2026, 1, "A", "A"⟩, ⟨2027, 1, "A", "A"⟩]
      [⟨"t1", 5, "A", "B", [⟨2025, 1, "A"⟩], none⟩])
    "A" [⟨2026, 1, "A"⟩, ⟨2027, 1, "A"⟩]
    ⟨⟨2026, 1, "A"⟩, by decide, rfl, rfl, by decide⟩ (by decide)).1

/-- C9: `validateStepienRule` accepts an empty pick list for every state and
trading team; the empty-trade rejection is produced only by
`validateNoDuplicatePicks`. -/
theorem stepien_empty_trade :
    ∀ (s : State) (T : TeamId),
      validateStepienRule s T [] = { ok := true, error := none } ∧
      (validateNoDuplicatePicks []).ok = false := by
  intro s T
  exact ⟨rfl, rfl⟩

/-- C4: `validateNoDuplicatePicks` rejects an empty pick list; a non-empty
list is rejected iff some identity key occurs more than once; the error
message is built from the duplicates list, which names every duplicated key;
and two picks sharing year and round but differing in `originalOwnerId`
alone are accepted. -/
theorem not_nodup_iff_two_le_count (l : List PickKey) :
    ¬ l.Nodup ↔ ∃ k : PickKey, 2 ≤ l.count k := by
  induction l with
  | nil => simp
  | cons a l ih =>
    rw [List.nodup_cons]
    constructor
    · intro h
      rcases not_and_or.mp h with h | h
      · push_neg at h
        refine ⟨a, ?_⟩
        rw [List.count_cons]
        have hp := List.count_pos_iff.mpr h
        simp only [beq_self_eq_true, if_true]
        omega
      · obtain ⟨k, hk⟩ := ih.mp h
        refine ⟨k, ?_⟩
        rw [List.count_cons]
        omega
    · rintro ⟨k, hk⟩
      rw [List.count_cons] at hk
      rintro ⟨hna, hnd⟩
      by_cases hka : k = a
      · subst hka
        simp only [beq_self_eq_true, if_true] at hk
        exact hna (List.count_pos_iff.mp (by omega))
      · have hb : (a == k) = false := by
          have hak : ¬a = k := fun hh => hka hh.symm
          simp [hak]
        rw [hb] at hk
        simp only [Bool.false_eq_true, if_false, Nat.add_zero] at hk
        exact ih.mpr ⟨k, hk⟩ hnd

theorem duplicate_picks_validation :
    ((validateNoDuplicatePicks []).ok = false)
    ∧ (∀ picks : List TradePickRef, picks ≠ [] →
        ((validateNoDuplicatePicks picks).ok = false ↔
          ∃ k : PickKey, 2 ≤ (picks.map TradePickRef.key).count k))
    ∧ (∀ (picks : List TradePickRef) (k : PickKey),
        2 ≤ (picks.map TradePickRef.key).count k →
        ∃ p ∈ picks, p.key = k ∧ dupMsg p ∈ duplicateEntries picks ∧
          (validateNoDuplicatePicks picks).error =
            some ("Duplicate picks found in trade: " ++
              String.intercalate ", " (duplicateEntries picks)))
    ∧ (∀ (y r : Int) (o₁ o₂ : TeamId), o₁ ≠ o₂ →
        (validateNoDuplicatePicks [⟨y, r, o₁⟩, ⟨y, r, o₂⟩]).ok = true) := by
  have hentries : ∀ picks : List TradePickRef,
      duplicateEntries picks = [] ↔ (picks.map TradePickRef.key).Nodup := by
    intro picks
    rw [duplicateEntries, dupScan_empty_iff]
    simp
  have hcount : ∀ picks : List TradePickRef,
      (∃ k : PickKey, 2 ≤ (picks.map TradePickRef.key).count k) ↔
        ¬ (picks.map TradePickRef.key).Nodup :=
    fun picks => (not_nodup_iff_two_le_count (picks.map TradePickRef.key)).symm
  refine ⟨rfl, ?_, ?_, ?_⟩
  · intro picks hne
    have hlen : ¬ picks.length = 0 := by
      simp [List.length_eq_zero, hne]
    simp only [validateNoDuplicatePicks, if_neg hlen]
    by_cases hd : duplicateEntries picks = []
    · rw [hd]
      simp only [List.length_nil, gt_iff_lt, Nat.lt_irrefl, if_false]
      constructor
      · intro h
        cases h
      · intro h
        exact absurd ((hentries picks).mp hd) ((hcount picks).mp h)
    · rw [if_pos (by simpa [gt_iff_lt, List.length_pos] using hd)]
      simp only [true_iff]
      exact (hcount picks).mpr (fun hnd => hd ((hentries picks).mpr hnd))
  · intro picks k hk
    have hne : picks ≠ [] := by
      intro h
      subst h
      simp at hk
    obtain ⟨p, hp, hpk, hmem⟩ := dupScan_mem_of_count picks [] k (Or.inr hk)
    have hd : duplicateEntries picks ≠ [] := List.ne_nil_of_mem hmem
    refine ⟨p, hp, hpk, hmem, ?_⟩
    have hlen : ¬ picks.length = 0 := by
      simp [List.length_eq_zero, hne]
    simp only [validateNoDuplicatePicks, if_neg hlen]
    rw [if_pos (by simpa [gt_iff_lt, List.length_pos] using hd)]
  · intro y r o₁ o₂ h
    have hne2 : ((y, r, o₂) : PickKey) ≠ ((y, r, o₁) : PickKey) := by
      simp only [ne_eq, Prod.mk.injEq, not_and]
      intro _ _
      exact Ne.symm h
    simp [validateNoDuplicatePicks, duplicateEntries, dupScan, TradePickRef.key, hne2]

theorem duplicate_picks_validation_witness :
    ((validateNoDuplicatePicks [⟨2026, 1, "A"⟩, ⟨2026, 1, "A"⟩]).ok = false ↔
      ∃ k : PickKey,
        2 ≤ (([⟨2026, 1, "A"⟩, ⟨2026, 1, "A"⟩] :
          List TradePickRef).map TradePickRef.key).count k) ∧
    (∃ p ∈ ([⟨2026, 1, "A"⟩, ⟨2026, 1, "A"⟩] : List TradePickRef),
      p.key = ((2026 : Int), (1 : Int), "A") ∧
      dupMsg p ∈ duplicateEntries [⟨2026, 1, "A"⟩, ⟨2026, 1, "A"⟩] ∧
      (validateNoDuplicatePicks [⟨2026, 1, "A"⟩, ⟨2026, 1, "A"⟩]).error =
        some ("Duplicate picks found in trade: " ++
          String.intercalate ", " (duplicateEntries [⟨2026, 1, "A"⟩, ⟨2026, 1, "A"⟩]))) ∧
    (validateNoDuplicatePicks [⟨2026, 1, "A"⟩, ⟨2026, 1, "B"⟩]).ok = true :=
  ⟨duplicate_picks_validation.2.1 [⟨2026, 1, "A"⟩, ⟨2026, 1, "A"⟩] (by decide),
   duplicate_picks_validation.2.2.1 [⟨2026, 1, "A"⟩, ⟨2026, 1, "A"⟩]
     ((2026 : Int), (1 : Int), "A") (by decide),
   duplicate_picks_validation.2.2.2 2026 1 "A" "B" (by decide)⟩

/-- C10: the `rebuildOwnership` embedded from tradeValidation.ts and the
`rebuildOwnership` embedded from OwnershipTable.tsx are extensionally equal:
they return the same ownership mapping on every state. -/
theorem rebuildOwnership_components_agree :
    ∀ s : State, rebuildOwnership s = OwnershipTable.rebuildOwnership s :=
  fun _ => rfl
